import Mathlib

/-!
Verification of the word-replacer content script (content.js, latest
revision) against its natural-language specification.

Modelling choices, shared by all definitions below:
* JS strings are lists of UTF-16 code units, `Str := List Nat`.  All inputs
  in the claims are ASCII, so `toUpperCase` / `toLowerCase` are modelled by
  their ASCII action `upCode` / `loCode`, which fix every non-letter code
  unit exactly as the JS functions do on this range.
* Every configured word is passed through `escapeRegex` in the source, so
  each alternative of the combined regular expression matches a literal
  word.  The compiled regex is therefore modelled semantically as the
  ordered list of its alternatives, each a literal word plus a flag saying
  whether it was wrapped in word-boundary assertions.  The `gi` flags of
  the combined regex make every alternative global and case-insensitive.
* `String.prototype.replace` with a global regex scans positions left to
  right, takes the first alternative that matches at a position, and
  resumes after the matched slice; the scan is modelled by `scanFuel`,
  whose fuel argument (one unit per consumed code unit) only serves
  structural termination and never runs out when started at `t.length`.
-/

namespace WordReplacer

/- JS strings, as lists of UTF-16 code units. -/
abbrev Str := List Nat

/-- Code units of a Lean string literal (all uses are ASCII). -/
def jstr (s : String) : Str := s.data.map Char.toNat

/-- ASCII action of `String.prototype.toUpperCase` on one code unit. -/
def upCode (n : Nat) : Nat := if 97 ≤ n ∧ n ≤ 122 then n - 32 else n

/-- ASCII action of `String.prototype.toLowerCase` on one code unit. -/
def loCode (n : Nat) : Nat := if 65 ≤ n ∧ n ≤ 90 then n + 32 else n

/-- `from.toUpperCase()`. -/
def strUpper (s : Str) : Str := s.map upCode

/-- `from.toLowerCase()`. -/
def strLower (s : Str) : Str := s.map loCode

/-- The test `/[A-Z]/.test(from)` of the source: some ASCII capital letter. -/
def hasUpperAZ (s : Str) : Bool := s.any (fun n => 65 ≤ n && n ≤ 90)

/-- An ASCII letter (used by the spec-side rewriter below). -/
def isLetterCode (n : Nat) : Bool := (65 ≤ n && n ≤ 90) || (97 ≤ n && n ≤ 122)

/-- `to.charAt(0).toUpperCase() + to.slice(1).toLowerCase()` of the source
(`charAt(0)` of the empty string is the empty string). -/
def capFirst : Str → Str
  | [] => []
  | c :: rest => upCode c :: strLower rest

/-- The case-preserving rewriter `preserveCase(from, to)` of content.js,
line for line: empty guard, acronym guard (length at most 2), ALL CAPS,
Capitalized, all-lower, mixed-case fallthrough. -/
def preserveCase (f t : Str) : Str :=
  if f = [] then t
  else if f.length ≤ 2 then t
  else if strUpper f = f ∧ hasUpperAZ f = true then strUpper t
  else
    match f with
    | [] => t
    | c :: rest =>
      if upCode c = c ∧ strLower rest = rest then capFirst t
      else if strLower f = f then strLower t
      else t

/-- The `adapt` contract as the spec words it (rules in priority order):
length at most 2 returns the replacement unchanged; all uppercase with at
least one letter upper-cases it; title case (first code unit fixed by
upper-casing, remainder fixed by lower-casing) capitalizes it; all
lowercase lower-cases it; anything else returns it unchanged.  This is the
spec-side definition used to compare against `preserveCase`. -/
def adaptSpec (m r : Str) : Str :=
  if m.length ≤ 2 then r
  else if strUpper m = m ∧ m.any isLetterCode = true then strUpper r
  else
    match m with
    | [] => r
    | c :: rest =>
      if upCode c = c ∧ strLower rest = rest then capFirst r
      else if strLower m = m then strLower r
      else r

theorem upCode_fix_letter_iff (n : Nat) (h : upCode n = n) :
    (65 ≤ n && n ≤ 90) = isLetterCode n := by
  have hn : ¬ (97 ≤ n ∧ n ≤ 122) := by
    unfold upCode at h
    split at h
    · omega
    · assumption
  unfold isLetterCode
  have h1 : (decide (97 ≤ n) && decide (n ≤ 122)) = false := by
    cases Decidable.em (97 ≤ n) with
    | inl hp =>
      have hq : ¬ n ≤ 122 := fun hq => hn ⟨hp, hq⟩
      simp [hq]
    | inr hp => simp [hp]
  rw [h1, Bool.or_false]

theorem strUpper_fix_pointwise {s : Str} (h : strUpper s = s) :
    ∀ n ∈ s, upCode n = n := by
  intro n hn
  induction s with
  | nil => cases hn
  | cons a l ih =>
    simp only [strUpper, List.map_cons, List.cons.injEq] at h
    cases hn with
    | head => exact h.1
    | tail _ hl => exact ih h.2 hl

theorem hasUpperAZ_eq_any_letter {s : Str} (h : strUpper s = s) :
    hasUpperAZ s = s.any isLetterCode := by
  unfold hasUpperAZ
  induction s with
  | nil => rfl
  | cons a l ih =>
    have ha : upCode a = a := strUpper_fix_pointwise h a (List.mem_cons_self a l)
    have hl : strUpper l = l := by
      simp only [strUpper, List.map_cons, List.cons.injEq] at h
      exact h.2
    simp only [List.any_cons, ih hl, upCode_fix_letter_iff a ha]

/-- C1: the case-preserving rewriter agrees with the spec's rule table on
every matched token and replacement, and satisfies the four literal test
vectors of the spec. -/
theorem preserveCase_matches_spec :
    (∀ f t : Str, preserveCase f t = adaptSpec f t) ∧
    preserveCase (jstr "MACHINE") (jstr "widget") = jstr "WIDGET" ∧
    preserveCase (jstr "Machine") (jstr "widget") = jstr "Widget" ∧
    preserveCase (jstr "machine") (jstr "Widget") = jstr "widget" ∧
    preserveCase (jstr "MaChInE") (jstr "widget") = jstr "widget" := by
  refine ⟨?_, by decide, by decide, by decide, by decide⟩
  intro f t
  cases f with
  | nil => rfl
  | cons c rest =>
    simp only [preserveCase, adaptSpec]
    rw [if_neg (List.cons_ne_nil c rest)]
    by_cases hlen : (c :: rest).length ≤ 2
    · rw [if_pos hlen, if_pos hlen]
    · rw [if_neg hlen, if_neg hlen]
      by_cases hup : strUpper (c :: rest) = c :: rest
      · simp only [hasUpperAZ_eq_any_letter hup]
      · have hno1 : ¬ (strUpper (c :: rest) = c :: rest ∧ hasUpperAZ (c :: rest) = true) :=
          fun h => hup h.1
        have hno2 : ¬ (strUpper (c :: rest) = c :: rest ∧ (c :: rest).any isLetterCode = true) :=
          fun h => hup h.1
        rw [if_neg hno1, if_neg hno2]

/-! ## Pattern compiler (buildCombinedRegex) -/

/-- ASCII whitespace trimmed by `String.prototype.trim`. -/
def isWs (n : Nat) : Bool := n = 32 || n = 9 || n = 10 || n = 13 || n = 11 || n = 12

/-- `w.trim()`. -/
def trimStr (s : Str) : Str := ((s.dropWhile isWs).reverse.dropWhile isWs).reverse

/-- JS truthiness of an optional boolean field (`undefined` is falsy). -/
def truthy : Option Bool → Bool
  | some b => b
  | none => false

/-- JS `a || d` for an optional string field: `undefined`, missing and the
empty string are all falsy and fall through to the default. -/
def jsOrStr (a : Option Str) (d : Str) : Str :=
  match a with
  | some s => if s = [] then d else s
  | none => d

/-- The fixed fallback replacement string of the source. -/
def cocaine : Str := jstr "Cocaine"

/-- A replacement group as stored in settings.  `replacement`,
`matchWholeWords` and `caseInsensitive` may be absent (`undefined`), which
the source handles through JS truthiness, so they are optional here. -/
structure Group where
  replacement : Option Str
  words : List Str
  matchWholeWords : Option Bool
  caseInsensitive : Option Bool
deriving DecidableEq

/-- One entry of `groupMappings`: pushed as
`replacement: group.replacement || 'Cocaine', caseInsensitive: group.caseInsensitive`
(the case flag is copied verbatim, possibly `undefined`). -/
structure Mapping where
  replacement : Str
  caseInsensitive : Option Bool
deriving DecidableEq

/-- One alternative `(pattern)` of the combined regex.  Each configured
word is `escapeRegex`-ed in the source, so the alternative matches the
literal word; `wholeWord` records whether it was wrapped as
`\b word \b`. -/
structure Pattern where
  word : Str
  wholeWord : Bool
deriving DecidableEq

/-- The value returned by `buildCombinedRegex`: the alternatives of the
single combined regex (compiled with flags `gi`) and the parallel
`mappings` array. -/
structure CompiledRegex where
  patterns : List Pattern
  mappings : List Mapping
deriving DecidableEq

/-- The per-group part of the `buildCombinedRegex` loop: trim the words,
drop the empty ones (`filter(Boolean)`), and emit one pattern and one
mapping per surviving word.  Groups that are `null` or have no words
contribute empty lists, exactly like the `continue`s of the source. -/
def compileGroup (g : Group) : List Pattern × List Mapping :=
  let ws := (g.words.map trimStr).filter (fun w => w ≠ [])
  (ws.map (fun w => { word := w, wholeWord := truthy g.matchWholeWords }),
   ws.map (fun _ => { replacement := jsOrStr g.replacement cocaine,
                      caseInsensitive := g.caseInsensitive }))

/-- `allPatterns` accumulated over the groups, in order. -/
def collectPatterns : List Group → List Pattern
  | [] => []
  | g :: gs => (compileGroup g).1 ++ collectPatterns gs

/-- `groupMappings` accumulated over the groups, in order. -/
def collectMappings : List Group → List Mapping
  | [] => []
  | g :: gs => (compileGroup g).2 ++ collectMappings gs

/-- `buildCombinedRegex`, lines 19-67 of content.js: `null` when there are
no groups or no usable word, otherwise the combined alternation and its
mapping list, both truncated to 500 entries when they exceed the cap. -/
def buildCombinedRegex (groups : List Group) : Option CompiledRegex :=
  if groups.isEmpty then none
  else
    let allPatterns := collectPatterns groups
    let groupMappings := collectMappings groups
    if allPatterns.isEmpty then none
    else if 500 < allPatterns.length then
      some { patterns := allPatterns.take 500, mappings := groupMappings.take 500 }
    else
      some { patterns := allPatterns, mappings := groupMappings }

/-! ## Regex semantics: matching one alternative at one position -/

/-- A regex word character as in `\b` semantics (`[A-Za-z0-9_]`). -/
def isWordCode (n : Nat) : Bool :=
  (48 ≤ n && n ≤ 57) || (65 ≤ n && n ≤ 90) || (97 ≤ n && n ≤ 122) || n == 95

/-- Word-character test of the optional code unit adjacent to a position
(`none` at the ends of the string counts as a non-word character). -/
def isWordOpt : Option Nat → Bool
  | none => false
  | some n => isWordCode n

/-- A `\b` assertion holds between two (optional) code units when exactly
one of them is a word character. -/
def boundaryB (a b : Option Nat) : Bool := isWordOpt a != isWordOpt b

/-- Case-insensitive equality of code units — the `i` flag of the combined
regex (ASCII canonicalization). -/
def ciEq (a b : Nat) : Bool := loCode a == loCode b

/-- The literal word `w` matches the front of `t`, case-insensitively. -/
def matchesCI : Str → Str → Bool
  | [], _ => true
  | _ :: _, [] => false
  | c :: w, d :: t => ciEq c d && matchesCI w t

/-- One alternative matches at the current position: the literal word must
match the front of the remaining text `t`, and for a `\b word \b`
alternative both boundary assertions must hold; `prev` is the code unit
just before the position. -/
def patMatchAt (p : Pattern) (prev : Option Nat) (t : Str) : Bool :=
  matchesCI p.word t &&
  (!p.wholeWord ||
    (boundaryB prev t.head? &&
     boundaryB (t.take p.word.length).getLast? (t.drop p.word.length).head?))

/-- First alternative (in pattern order) matching at this position,
together with its index — JS alternation is first-match, not
longest-match. -/
def firstMatchAux : List Pattern → Nat → Option Nat → Str → Option (Nat × Pattern)
  | [], _, _, _ => none
  | p :: ps, i, prev, t =>
    if patMatchAt p prev t then some (i, p) else firstMatchAux ps (i + 1) prev t

def firstMatch (pats : List Pattern) (prev : Option Nat) (t : Str) :
    Option (Nat × Pattern) := firstMatchAux pats 0 prev t

/-! ## The replacement pass (String.prototype.replace with callback) -/

/-- The replacement callback of `replaceInTextNode`, lines 135-151: find
the mapping of the matched alternative (the first defined capture group is
the alternative that matched, and the value it captured is the matched
slice itself); for a case-sensitive mapping compare that captured value
with the match; then apply `preserveCase`.  `m` is the matched slice with
its original casing, `j` the alternative index. -/
def replaceCallback (maps : List Mapping) (m : Str) (j : Nat) : Str :=
  match maps.get? j with
  | none => m
  | some mp =>
    let captured := m
    if truthy mp.caseInsensitive = false ∧ captured ≠ m then m
    else preserveCase m mp.replacement

/-- Left-to-right global replacement scan.  At each position the first
matching alternative is replaced via the callback and the scan resumes
after the matched slice (for an empty match JS advances one unit, kept
here only for totality — compiled words are never empty).  `skip` counts
code units still covered by the last match; `fuel` decreases by one per
consumed code unit and is only a structural termination device. -/
def scanFuel (cr : CompiledRegex) : Nat → Nat → Option Nat → Str → Str
  | _, _, _, [] => []
  | 0, _, _, t => t
  | fuel + 1, skip + 1, _, c :: rest => scanFuel cr fuel skip (some c) rest
  | fuel + 1, 0, prev, c :: rest =>
    match firstMatch cr.patterns prev (c :: rest) with
    | none => c :: scanFuel cr fuel 0 (some c) rest
    | some (j, p) =>
      let m := (c :: rest).take p.word.length
      replaceCallback cr.mappings m j ++
        (if p.word.length = 0 then c :: scanFuel cr fuel 0 (some c) rest
         else scanFuel cr fuel (p.word.length - 1) (some c) rest)

/-- `originalText.replace(compiledRegex.regex, callback)`. -/
def replaceScan (cr : CompiledRegex) (t : Str) : Str :=
  scanFuel cr t.length 0 none t

/-- `compiledRegex.regex.test(originalText)`: some alternative matches at
some position. -/
def testAux (pats : List Pattern) : Option Nat → Str → Bool
  | prev, [] => (firstMatch pats prev []).isSome
  | prev, c :: rest => (firstMatch pats prev (c :: rest)).isSome || testAux pats (some c) rest

def testRegex (cr : CompiledRegex) (t : Str) : Bool := testAux cr.patterns none t

/-- `replaceInTextNode`, lines 116-161, as a function from the node's text
to the written value: `none` means the node's `nodeValue` is not assigned.
Guards in source order: no compiled regex; parent in a skipped context;
node already processed; very short text (the empty-string guard `!originalText`
is subsumed by `length < 2`); cheap `test` before the full replace; and
finally the text is written only when it changed. -/
def replaceInTextNode (cr? : Option CompiledRegex) (parentSkipped processed : Bool)
    (t : Str) : Option Str :=
  match cr? with
  | none => none
  | some cr =>
    if parentSkipped then none
    else if processed then none
    else if t.length < 2 then none
    else if testRegex cr t = false then none
    else
      let replaced := replaceScan cr t
      if replaced ≠ t then some replaced else none

/-- The text a node holds after the apply step (the written value if a
write happened, otherwise the old text). -/
def applyTextNode (cr : CompiledRegex) (parentSkipped : Bool) (t : Str) : Str :=
  match replaceInTextNode (some cr) parentSkipped false t with
  | some r => r
  | none => t

/-- The whole engine applied to a single fresh text node in a
non-skipped context. -/
def runEngine (groups : List Group) (t : Str) : Str :=
  match replaceInTextNode (buildCombinedRegex groups) false false t with
  | some r => r
  | none => t

/-! ## Eligibility filter and document traversal -/

/-- What `shouldSkipNode` reads off an element: its `nodeName` and its
`isContentEditable` flag. -/
structure ElemInfo where
  nodeName : Str
  isContentEditable : Bool
deriving DecidableEq

/- A DOM subtree: text nodes and elements.  `DomList` is the (mutually
inductive) list of children, which keeps every definition below
structurally recursive. -/
mutual
inductive Dom where
  | text (s : Str)
  | elem (info : ElemInfo) (children : DomList)
deriving DecidableEq

inductive DomList where
  | nil
  | cons (hd : Dom) (tl : DomList)
deriving DecidableEq
end

/- The ancestor loop of `shouldSkipNode`, lines 102-108: walk the parent
chain (nearest first) looking only for editable content and the three
form-control tags. -/
def skipAncestors : List ElemInfo → Bool
  | [] => false
  | p :: rest =>
    if p.isContentEditable then true
    else if p.nodeName = jstr "INPUT" ∨ p.nodeName = jstr "TEXTAREA" ∨
            p.nodeName = jstr "SELECT" then true
    else skipAncestors rest

/-- The own-tag check of `shouldSkipNode`, lines 110-113. -/
def isSkipTag (t : Str) : Bool :=
  t == jstr "SCRIPT" || t == jstr "STYLE" || t == jstr "NOSCRIPT" ||
  t == jstr "IFRAME" || t == jstr "INPUT" || t == jstr "TEXTAREA" ||
  t == jstr "SELECT" || t == jstr "OPTION"

/-- `shouldSkipNode(node)`, lines 95-114, for an element `info` whose
ancestor chain (nearest first) is `ancestors`.  (The `!node` guard cannot
fire in the traversal, where the argument is always an element.) -/
def shouldSkipNode (info : ElemInfo) (ancestors : List ElemInfo) : Bool :=
  if info.isContentEditable then true
  else if skipAncestors ancestors then true
  else isSkipTag info.nodeName

/- The traversal of `walkAndReplace` below the root: the `TreeWalker`
enumerates every text descendant and its filter consults `shouldSkipNode`
on the immediate parent only (which itself walks the full ancestor chain),
so the traversal descends through every element unconditionally and
guards each text node by its parent's check.  `anc` is the ancestor chain
above the current node, nearest first. -/
mutual
def processDom (cr : CompiledRegex) (anc : List ElemInfo) : Dom → Dom
  | .text s => .text s
  | .elem info cs => .elem info (processChildren cr info anc cs)

def processChildren (cr : CompiledRegex) (info : ElemInfo) (anc : List ElemInfo) :
    DomList → DomList
  | .nil => .nil
  | .cons (.text s) tl =>
    .cons (.text (applyTextNode cr (shouldSkipNode info anc) s))
      (processChildren cr info anc tl)
  | .cons (.elem i2 cs2) tl =>
    .cons (processDom cr (info :: anc) (.elem i2 cs2)) (processChildren cr info anc tl)
end

/- `walkAndReplace(root)`, lines 208-236: no-op when the root itself is
skipped, otherwise process every text descendant.  (A bare text root is
left alone: the walker never yields its own root.) -/
def walkAndReplace (cr : CompiledRegex) (anc : List ElemInfo) (root : Dom) : Dom :=
  match root with
  | .text s => .text s
  | .elem info cs =>
    if shouldSkipNode info anc then .elem info cs
    else processDom cr anc (.elem info cs)

/-- The in-memory settings object. -/
structure Settings where
  enabled : Bool
  replacementGroups : List Group
deriving DecidableEq

/-- `applyAll`, lines 282-288: nothing happens when disabled or without a
compiled regex; otherwise the processed-node cache is recreated empty and
the whole document is walked (so within one pass every text node is fresh,
which is why the per-node step below runs with `processed := false`). -/
def applyAll (s : Settings) (doc : Dom) : Dom :=
  if s.enabled = false then doc
  else
    match buildCombinedRegex s.replacementGroups with
    | none => doc
    | some cr => walkAndReplace cr [] doc

/- Concatenated text content of a subtree, document order. -/
mutual
def docText : Dom → Str
  | .text s => s
  | .elem _ cs => docTextList cs

def docTextList : DomList → Str
  | .nil => []
  | .cons d tl => docText d ++ docTextList tl
end

/- The text held by the node at a child-index path, if that path leads to
a text node. -/
mutual
def textAt : Dom → List Nat → Option Str
  | .text s, [] => some s
  | .elem _ cs, i :: p => textAtList cs i p
  | _, _ => none

def textAtList : DomList → Nat → List Nat → Option Str
  | .nil, _, _ => none
  | .cons d _, 0, p => textAt d p
  | .cons _ tl, i + 1, p => textAtList tl i p
end

/- The path leads to a text node whose immediate parent — with its full
ancestor chain above `anc` — satisfies `shouldSkipNode`.  This is the
protection the eligibility filter actually grants. -/
mutual
def protectedAt : List ElemInfo → Dom → List Nat → Bool
  | _, .text _, _ => false
  | anc, .elem info cs, i :: p => protectedAtList anc info cs i p
  | _, .elem _ _, [] => false

def protectedAtList : List ElemInfo → ElemInfo → DomList → Nat → List Nat → Bool
  | anc, info, .cons (.text _) _, 0, [] => shouldSkipNode info anc
  | _, _, .cons _ _, 0, [] => false
  | anc, info, .cons d _, 0, p@(_ :: _) => protectedAt (info :: anc) d p
  | anc, info, .cons _ tl, i + 1, p => protectedAtList anc info tl i p
  | _, _, .nil, _, _ => false
end

/- Every text node of the subtree is left unchanged by a replacement
pass over it (`replaceScan` is the identity on its text). -/
mutual
def textsStable (cr : CompiledRegex) : Dom → Bool
  | .text s => replaceScan cr s == s
  | .elem _ cs => textsStableList cr cs

def textsStableList (cr : CompiledRegex) : DomList → Bool
  | .nil => true
  | .cons d tl => textsStable cr d && textsStableList cr tl
end

/-! ## Settings store and loadSettings -/

/-- The keys `loadSettings` reads from the synchronized storage area;
`none` is an absent key (`undefined`). -/
structure Store where
  enabled : Option Bool
  replacementGroups : Option (List Group)
  replacement : Option Str
  words : Option (List Str)
  matchWholeWords : Option Bool
  caseInsensitive : Option Bool
deriving DecidableEq

/-- `loadSettings`, lines 296-332: when `replacementGroups` is present the
new format wins; otherwise the legacy keys are read and, when a non-empty
`words` list exists, converted into a single group with
`replacement || 'Cocaine'` and both flags defaulted to `true` via `??`. -/
def loadSettings (s : Store) : Settings :=
  match s.replacementGroups with
  | some gs => { enabled := s.enabled.getD true, replacementGroups := gs }
  | none =>
    { enabled := s.enabled.getD true,
      replacementGroups :=
        match s.words with
        | some (w :: ws) =>
          [{ replacement := some (jsOrStr s.replacement cocaine),
             words := w :: ws,
             matchWholeWords := some (s.matchWholeWords.getD true),
             caseInsensitive := some (s.caseInsensitive.getD true) }]
        | _ => [] }

/-! ## Mutation coordinator -/

/-- The coordinator's mutable state: whether the observer is connected,
the `pendingMutations` batch list, whether a debounce timeout is armed,
and (for the model) the log of node identities processed so far. -/
structure CoordState where
  observing : Bool
  pendingMutations : List (List Nat)
  timerArmed : Bool
  processed : List Nat
deriving DecidableEq

/-- The events driving the coordinator: a delivered mutation batch (with
the ids of the queued nodes), `stopObserving`, `startObserving`, and the
debounce timeout firing. -/
inductive CoordEvent where
  | mutationBatch (nodes : List Nat)
  | stop
  | start
  | timerFire
deriving DecidableEq

def CoordEvent.isMutation : CoordEvent → Bool
  | .mutationBatch _ => true
  | _ => false

/-- `nodesToProcess` of `processPendingMutations`: every node of every
queued batch (set-deduplication dropped — it does not affect which nodes
are processed). -/
def flattenBatches : List (List Nat) → List Nat
  | [] => []
  | b :: bs => b ++ flattenBatches bs

/-- One step of the coordinator.
* A mutation batch is only delivered while the observer is connected;
  it appends to `pendingMutations` and (re)arms the debounce timeout
  (`clearTimeout` + `setTimeout`), as in the observer callback,
  lines 243-265.
* `stopObserving`, lines 274-280: disconnect and `clearTimeout`.  The
  `pendingMutations` array is left as it is — the source never clears it.
* `startObserving`, lines 240-272: (re)connect.
* The timeout firing runs `processPendingMutations`, lines 167-206:
  nothing to do on an empty queue, otherwise every queued node is
  processed and the queue is emptied. -/
def coordStep (s : CoordState) : CoordEvent → CoordState
  | .mutationBatch nodes =>
    if s.observing = false then s
    else if nodes.isEmpty then s
    else { s with pendingMutations := s.pendingMutations ++ [nodes], timerArmed := true }
  | .stop => { s with observing := false, timerArmed := false }
  | .start => { s with observing := true }
  | .timerFire =>
    if s.timerArmed = false then s
    else if s.pendingMutations.isEmpty then { s with timerArmed := false }
    else
      { s with processed := s.processed ++ flattenBatches s.pendingMutations,
               pendingMutations := [], timerArmed := false }

/-- The coordinator driven by a sequence of events. -/
def coordRun (s : CoordState) (events : List CoordEvent) : CoordState :=
  events.foldl coordStep s

/-- The initial state: Stopped, no queue, no timer. -/
def coordInit : CoordState :=
  { observing := false, pendingMutations := [], timerArmed := false, processed := [] }

/-! ## Concrete fixtures used by the claim theorems -/

/-- Whole-word, case-insensitive group replacing "cat" by "dog". -/
def catWholeG : Group :=
  { replacement := some (jstr "dog"), words := [jstr "cat"],
    matchWholeWords := some true, caseInsensitive := some true }

/-- Same group with whole-word matching off. -/
def catLooseG : Group :=
  { replacement := some (jstr "dog"), words := [jstr "cat"],
    matchWholeWords := some false, caseInsensitive := some false }

/-- Case-sensitive group (caseInsensitive explicitly false). -/
def catCsG : Group :=
  { replacement := some (jstr "dog"), words := [jstr "cat"],
    matchWholeWords := some false, caseInsensitive := some false }

/-- Group with every optional field missing. -/
def catDefG : Group :=
  { replacement := none, words := [jstr "cat"],
    matchWholeWords := none, caseInsensitive := none }

/-- Group whose replacement contains one of its own words. -/
def wildcatG : Group :=
  { replacement := some (jstr "wildcat"), words := [jstr "cat"],
    matchWholeWords := some false, caseInsensitive := some true }

def sCat : Settings := { enabled := true, replacementGroups := [catWholeG] }

def sWild : Settings := { enabled := true, replacementGroups := [wildcatG] }

/-- The compiled matcher of `[catWholeG]`. -/
def crCat : CompiledRegex :=
  { patterns := [{ word := jstr "cat", wholeWord := true }],
    mappings := [{ replacement := jstr "dog", caseInsensitive := some true }] }

def einfo (t : String) : ElemInfo := { nodeName := jstr t, isContentEditable := false }

/-- body > "cat". -/
def docCat1 : Dom := .elem (einfo "BODY") (.cons (.text (jstr "cat")) .nil)

/-- body > "the cat sat". -/
def docCat2 : Dom := .elem (einfo "BODY") (.cons (.text (jstr "the cat sat")) .nil)

/-- html > noscript > div > "the cat sat": the text's grandparent chain
contains a NOSCRIPT element, but its immediate parent is a plain DIV. -/
def docNoscript : Dom :=
  .elem (einfo "HTML")
    (.cons (.elem (einfo "NOSCRIPT")
      (.cons (.elem (einfo "DIV") (.cons (.text (jstr "the cat sat")) .nil)) .nil)) .nil)

/-- body > script > "the cat sat". -/
def docScript : Dom :=
  .elem (einfo "BODY")
    (.cons (.elem (einfo "SCRIPT") (.cons (.text (jstr "the cat sat")) .nil)) .nil)

/-- A store holding only the two legacy keys of the migration claim. -/
def store7 : Store :=
  { enabled := none, replacementGroups := none, replacement := some (jstr "X"),
    words := some [jstr "foo"], matchWholeWords := none, caseInsensitive := none }

/-- A coordinator state with a queued batch and an armed timer. -/
def coordS8 : CoordState :=
  { observing := true, pendingMutations := [[1]], timerArmed := true, processed := [] }

/-! ## Helper lemmas -/

theorem replaceInTextNode_eq_none (cr : CompiledRegex) (b1 b2 : Bool) (t : Str)
    (h : replaceScan cr t = t) : replaceInTextNode (some cr) b1 b2 t = none := by
  simp only [replaceInTextNode]
  split_ifs with h1 h2 h3 h4 h5
  any_goals rfl
  exact absurd h h5

theorem applyTextNode_stable (cr : CompiledRegex) (b : Bool) (s : Str)
    (h : replaceScan cr s = s) : applyTextNode cr b s = s := by
  unfold applyTextNode
  rw [replaceInTextNode_eq_none cr b false s h]

theorem all_map_of_all {A B : Type} (f : A → B) (pred : B → Bool)
    (hf : ∀ a : A, pred (f a) = true) : ∀ l : List A, (l.map f).all pred = true := by
  intro l
  induction l with
  | nil => rfl
  | cons a tl ih => simp [List.map_cons, List.all_cons, hf a, ih]

theorem all_take_of_all {α : Type} (p : α → Bool) :
    ∀ (l : List α) (n : Nat), l.all p = true → (l.take n).all p = true := by
  intro l
  induction l with
  | nil => intro n _; simp
  | cons a tl ih =>
    intro n h
    rw [List.all_cons, Bool.and_eq_true] at h
    cases n with
    | zero => simp
    | succ m =>
      rw [List.take_succ_cons, List.all_cons, Bool.and_eq_true]
      exact ⟨h.1, ih m h.2⟩

theorem collect_length_eq : ∀ gs : List Group,
    (collectPatterns gs).length = (collectMappings gs).length := by
  intro gs
  induction gs with
  | nil => rfl
  | cons g t ih =>
    simp [collectPatterns, collectMappings, compileGroup, ih]

theorem firstMatchAux_lt :
    ∀ (ps : List Pattern) (i : Nat) (prev : Option Nat) (t : Str) (j : Nat) (p : Pattern),
      firstMatchAux ps i prev t = some (j, p) → j < i + ps.length := by
  intro ps
  induction ps with
  | nil => intro i prev t j p h; cases h
  | cons q qs ih =>
    intro i prev t j p h
    unfold firstMatchAux at h
    split at h
    · cases h; simp
    · have := ih (i + 1) prev t j p h
      simp only [List.length_cons]
      omega

/- Sizes, used to drive induction over the mutual `Dom` and `DomList`. -/
mutual
def domSize : Dom → Nat
  | .text _ => 1
  | .elem _ cs => 1 + domListSize cs

def domListSize : DomList → Nat
  | .nil => 0
  | .cons d tl => domSize d + domListSize tl
end

theorem domSize_pos (d : Dom) : 1 ≤ domSize d := by
  cases d <;> simp [domSize]

theorem processDom_fix_aux (cr : CompiledRegex) :
    ∀ n : Nat,
      (∀ (d : Dom) (anc : List ElemInfo), domSize d ≤ n → textsStable cr d = true →
        processDom cr anc d = d) ∧
      (∀ (cs : DomList) (info : ElemInfo) (anc : List ElemInfo), domListSize cs ≤ n →
        textsStableList cr cs = true → processChildren cr info anc cs = cs) := by
  intro n
  induction n with
  | zero =>
    constructor
    · intro d anc hsz _
      exact absurd hsz (by have := domSize_pos d; omega)
    · intro cs info anc hsz _
      cases cs with
      | nil => rfl
      | cons d tl =>
        exact absurd hsz (by have := domSize_pos d; simp [domListSize]; omega)
  | succ n ihn =>
    constructor
    · intro d anc hsz hst
      cases d with
      | text s => rfl
      | elem info cs =>
        have h1 : domListSize cs ≤ n := by simp [domSize] at hsz; omega
        have h2 : textsStableList cr cs = true := by simpa [textsStable] using hst
        simp [processDom, ihn.2 cs info anc h1 h2]
    · intro cs info anc hsz hst
      cases cs with
      | nil => rfl
      | cons d tl =>
        have hs1 : textsStable cr d = true ∧ textsStableList cr tl = true := by
          simpa [textsStableList, Bool.and_eq_true] using hst
        have htl : domListSize tl ≤ n := by
          have := domSize_pos d
          simp [domListSize] at hsz
          omega
        cases d with
        | text s =>
          have hss : replaceScan cr s = s := by
            simpa [textsStable, beq_iff_eq] using hs1.1
          simp [processChildren, applyTextNode_stable cr _ s hss,
            ihn.2 tl info anc htl hs1.2]
        | elem i2 cs2 =>
          have hcs2 : domListSize cs2 ≤ n := by
            simp [domListSize, domSize] at hsz
            omega
          have hstb : textsStableList cr cs2 = true := by
            simpa [textsStable] using hs1.1
          simp [processChildren, processDom, ihn.2 cs2 i2 (info :: anc) hcs2 hstb,
            ihn.2 tl info anc htl hs1.2]

theorem walkAndReplace_fix (cr : CompiledRegex) (anc : List ElemInfo) (doc : Dom)
    (h : textsStable cr doc = true) : walkAndReplace cr anc doc = doc := by
  cases doc with
  | text s => rfl
  | elem info cs =>
    simp only [walkAndReplace]
    split
    · rfl
    · exact (processDom_fix_aux cr (domSize (.elem info cs))).1 _ anc (Nat.le_refl _) h

theorem processDom_protected (cr : CompiledRegex) :
    ∀ (pth : List Nat) (d : Dom) (anc : List ElemInfo),
      protectedAt anc d pth = true →
      textAt (processDom cr anc d) pth = textAt d pth := by
  intro pth
  induction pth with
  | nil =>
    intro d anc h
    cases d <;> simp [protectedAt] at h
  | cons i p ih =>
    intro d anc h
    cases d with
    | text s => simp [protectedAt] at h
    | elem info cs =>
      have h' : protectedAtList anc info cs i p = true := by
        simpa [protectedAt] using h
      simp only [processDom, textAt]
      clear h
      revert h'
      induction i generalizing cs with
      | zero =>
        intro h'
        cases cs with
        | nil => simp [protectedAtList] at h'
        | cons hd tl =>
          cases p with
          | nil =>
            cases hd with
            | text s =>
              have hskip : shouldSkipNode info anc = true := by
                simpa [protectedAtList] using h'
              simp [processChildren, textAtList, textAt, hskip, applyTextNode,
                replaceInTextNode]
            | elem i2 cs2 => simp [protectedAtList] at h'
          | cons q qs =>
            cases hd with
            | text s0 => simp [protectedAtList, protectedAt] at h'
            | elem i2 cs2 =>
              have hh : protectedAt (info :: anc) (.elem i2 cs2) (q :: qs) = true := by
                simpa [protectedAtList] using h'
              simp only [processChildren, textAtList]
              exact ih _ _ hh
      | succ i2 ih2 =>
        intro h'
        cases cs with
        | nil => simp [protectedAtList] at h'
        | cons hd tl =>
          have hh : protectedAtList anc info tl i2 p = true := by
            cases hd <;> simpa [protectedAtList] using h'
          cases hd with
          | text s0 =>
            simp only [processChildren, textAtList]
            exact ih2 tl hh
          | elem i2' cs2' =>
            simp only [processChildren, textAtList]
            exact ih2 tl hh

/-! ## Claim theorems -/

/-- C2: the compiled engine rewrites a differently-cased occurrence even
for a group whose caseInsensitive flag is false — the combined regex
carries the `i` flag and the per-match "exact match" verification compares
the captured group value with the match text, which are the same string,
so it can never reject a match.  Here the case-sensitive group replacing
"cat" rewrites the text node "CAT". -/
theorem caseSensitive_group_rewrites_other_case :
    replaceInTextNode (buildCombinedRegex [catCsG]) false false (jstr "CAT") =
      some (jstr "DOG") := by decide

/-- C3 counterexample: with the single group replacing "cat" by "wildcat"
(whole-word off), one full apply pass turns body-text "cat" into
"wildcat", and a second pass — the processed-node cache is recreated by
`applyAll` — rewrites the replaced text again, producing "wildwildcat". -/
theorem applyAll_not_idempotent :
    docText (applyAll sWild docCat1) = jstr "wildcat" ∧
    docText (applyAll sWild (applyAll sWild docCat1)) = jstr "wildwildcat" := by
  exact ⟨by decide, by decide⟩

/-- C3 (amended): a second full apply pass is the identity provided the
document produced by the first pass is stable — no text node of it is
changed by another replacement scan.  (Unconditional idempotence fails:
see the counterexample, where a replacement string itself matches a
configured word.) -/
theorem applyAll_idempotent_of_stable (s : Settings) (doc : Dom) (cr : CompiledRegex)
    (h1 : buildCombinedRegex s.replacementGroups = some cr)
    (h2 : textsStable cr (applyAll s doc) = true) :
    applyAll s (applyAll s doc) = applyAll s doc := by
  simp only [applyAll, h1] at h2 ⊢
  split_ifs with he
  · rfl
  · rw [if_neg he] at h2
    exact walkAndReplace_fix cr [] _ h2

theorem applyAll_idempotent_of_stable_witness :
    applyAll sCat (applyAll sCat docCat2) = applyAll sCat docCat2 :=
  applyAll_idempotent_of_stable sCat docCat2 crCat (by decide) (by decide)

/-- C4: whole-word matching behaves as claimed on the three test vectors
("concatenate" untouched with the flag on, "the cat sat" rewritten at the
token "cat" only, "concatenate" rewritten inside with the flag off), and in
general every alternative compiled from a group carries a word-boundary
wrapper exactly when the group's matchWholeWords flag is truthy, i.e. iff
the flag is present and true. -/
theorem wholeWord_flag_behavior :
    runEngine [catWholeG] (jstr "concatenate") = jstr "concatenate" ∧
    runEngine [catWholeG] (jstr "the cat sat") = jstr "the dog sat" ∧
    runEngine [catLooseG] (jstr "concatenate") = jstr "condogenate" ∧
    (∀ g : Group,
      ((compileGroup g).1.all fun p => p.wholeWord == truthy g.matchWholeWords) = true) ∧
    (∀ o : Option Bool, truthy o = true ↔ o = some true) := by
  refine ⟨by decide, by decide, by decide, ?_, ?_⟩
  · intro g
    exact all_map_of_all _ _ (fun w => by simp) _
  · intro o
    cases o with
    | none => simp [truthy]
    | some b => cases b <;> simp [truthy]

/-- C5 counterexample: the text node at path html > noscript > div holds
"the cat sat"; although a NOSCRIPT element is among its ancestors, its
immediate parent is a DIV, the ancestor loop only looks for editable,
INPUT, TEXTAREA and SELECT ancestors, and so the apply pass rewrites the
text to "the dog sat". -/
theorem ancestor_filter_misses_noscript :
    textAt docNoscript [0, 0, 0] = some (jstr "the cat sat") ∧
    textAt (applyAll sCat docNoscript) [0, 0, 0] = some (jstr "the dog sat") := by
  exact ⟨by decide, by decide⟩

/-- C5 (amended): a text node is guaranteed untouched by the apply pass
when its immediate parent — with the parent's full ancestor chain — passes
`shouldSkipNode`: parent tag among the eight excluded tags, or parent
editable, or any ancestor editable or of tag INPUT, TEXTAREA or SELECT.
The remaining excluded tags (SCRIPT, STYLE, NOSCRIPT, IFRAME, OPTION)
protect only text whose direct parent is such an element. -/
theorem skipped_parent_text_unchanged (s : Settings) (doc : Dom) (pth : List Nat)
    (h : protectedAt [] doc pth = true) :
    textAt (applyAll s doc) pth = textAt doc pth := by
  simp only [applyAll]
  split_ifs with he
  · rfl
  · cases hb : buildCombinedRegex s.replacementGroups with
    | none => rfl
    | some cr =>
      cases doc with
      | text s0 => rfl
      | elem info cs =>
        simp only [walkAndReplace]
        split
        · rfl
        · exact processDom_protected cr pth _ [] h

theorem skipped_parent_text_unchanged_witness :
    textAt (applyAll sCat docScript) [0, 0] = textAt docScript [0, 0] :=
  skipped_parent_text_unchanged sCat docScript [0, 0] (by decide)

/-- C6 counterexample: for the group whose replacement and flags are all
missing, compilation falls back to the replacement "Cocaine" as claimed,
but the missing matchWholeWords flag yields an alternative without word
boundaries (so "concatenate" is rewritten inside, which a whole-word
default would forbid) and the missing caseInsensitive flag is stored as
missing, not as true. -/
theorem missing_flags_not_defaulted_true :
    runEngine [catDefG] (jstr "concatenate") = jstr "concocaineenate" ∧
    buildCombinedRegex [catDefG] =
      some { patterns := [{ word := jstr "cat", wholeWord := false }],
             mappings := [{ replacement := jstr "Cocaine", caseInsensitive := none }] } := by
  exact ⟨by decide, by decide⟩

/-- C6 (amended): compiling a single group defaults an empty or missing
replacement to the fixed fallback string, copies the caseInsensitive flag
through unchanged (missing stays missing), and applies word boundaries
exactly when matchWholeWords is truthy — so a missing matchWholeWords
flag means partial matching, not whole-word matching. -/
theorem compile_group_defaults (g : Group) (cr : CompiledRegex)
    (h : buildCombinedRegex [g] = some cr) :
    (cr.mappings.all fun mp =>
      mp.replacement == jsOrStr g.replacement cocaine &&
      mp.caseInsensitive == g.caseInsensitive) = true ∧
    (cr.patterns.all fun p => p.wholeWord == truthy g.matchWholeWords) = true := by
  have hall1 : ((compileGroup g).2.all fun mp =>
      mp.replacement == jsOrStr g.replacement cocaine &&
      mp.caseInsensitive == g.caseInsensitive) = true :=
    all_map_of_all _ _ (fun w => by simp) _
  have hall2 : ((compileGroup g).1.all fun p =>
      p.wholeWord == truthy g.matchWholeWords) = true :=
    all_map_of_all _ _ (fun w => by simp) _
  have hcp : collectPatterns [g] = (compileGroup g).1 := by
    simp [collectPatterns]
  have hcm : collectMappings [g] = (compileGroup g).2 := by
    simp [collectMappings]
  simp only [buildCombinedRegex] at h
  split at h
  · cases h
  · split at h
    · cases h
    · split at h
      · cases h
        constructor
        · exact all_take_of_all _ _ _ (hcm ▸ hall1)
        · exact all_take_of_all _ _ _ (hcp ▸ hall2)
      · cases h
        exact ⟨hcm ▸ hall1, hcp ▸ hall2⟩

theorem compile_group_defaults_witness :
    ((CompiledRegex.mk [{ word := jstr "cat", wholeWord := false }]
        [{ replacement := jstr "Cocaine", caseInsensitive := none }]).mappings.all
      fun mp => mp.replacement == jsOrStr catDefG.replacement cocaine &&
        mp.caseInsensitive == catDefG.caseInsensitive) = true ∧
    ((CompiledRegex.mk [{ word := jstr "cat", wholeWord := false }]
        [{ replacement := jstr "Cocaine", caseInsensitive := none }]).patterns.all
      fun p => p.wholeWord == truthy catDefG.matchWholeWords) = true :=
  compile_group_defaults catDefG _ (by decide)

/-- C7: a store holding only the legacy keys replacement = "X" and
words = ["foo"] (no replacementGroups key) loads into the enabled
configuration with exactly one group carrying replacement "X", words
["foo"], and both matchWholeWords and caseInsensitive defaulted to
true. -/
theorem legacy_migration :
    loadSettings store7 =
      { enabled := true,
        replacementGroups := [{ replacement := some (jstr "X"), words := [jstr "foo"],
                                matchWholeWords := some true,
                                caseInsensitive := some true }] } := by decide

/-- C8 counterexample: after start, one queued mutation batch and a stop,
the coordinator is Stopped but its pending queue still holds the batch;
after a restart and a fresh mutation, the debounce timeout fires and
processes node 1 — a node enqueued before the stop — together with the new
node 2. -/
theorem pending_work_survives_stop :
    (coordRun coordInit [.start, .mutationBatch [1], .stop]).observing = false ∧
    (coordRun coordInit [.start, .mutationBatch [1], .stop]).pendingMutations = [[1]] ∧
    (coordRun coordInit
      [.start, .mutationBatch [1], .stop, .start, .mutationBatch [2],
       .timerFire]).processed = [1, 2] := by
  exact ⟨by decide, by decide, by decide⟩

/-- C8 (amended): stopping disconnects the observer and cancels the
debounce timeout, so after a stop no node whatsoever is processed as long
as no new mutation batch is delivered — the pending queue, however, is not
cleared, and survives into a restart (see the counterexample). -/
theorem stop_cancels_timer_no_processing (s : CoordState) (tr : List CoordEvent)
    (h : (tr.all fun e => !e.isMutation) = true) :
    (coordRun (coordStep s .stop) tr).processed = s.processed := by
  have key : ∀ (tr : List CoordEvent) (s' : CoordState), s'.timerArmed = false →
      (tr.all fun e => !e.isMutation) = true →
      (coordRun s' tr).processed = s'.processed ∧ (coordRun s' tr).timerArmed = false := by
    intro tr
    induction tr with
    | nil => intro s' h1 _; exact ⟨rfl, h1⟩
    | cons e es ih =>
      intro s' h1 h2
      have he : e.isMutation = false ∧ (es.all fun e => !e.isMutation) = true := by
        simpa [List.all_cons] using h2
      have hstep : (coordStep s' e).processed = s'.processed ∧
          (coordStep s' e).timerArmed = false := by
        cases e with
        | mutationBatch ns => simp [CoordEvent.isMutation] at he
        | stop => exact ⟨rfl, rfl⟩
        | start => exact ⟨rfl, h1⟩
        | timerFire => simp [coordStep, h1]
      have hrest := ih (coordStep s' e) hstep.2 he.2
      refine ⟨?_, ?_⟩
      · calc (coordRun s' (e :: es)).processed
            = (coordRun (coordStep s' e) es).processed := by
              simp [coordRun, List.foldl_cons]
          _ = (coordStep s' e).processed := hrest.1
          _ = s'.processed := hstep.1
      · calc (coordRun s' (e :: es)).timerArmed
            = (coordRun (coordStep s' e) es).timerArmed := by
              simp [coordRun, List.foldl_cons]
          _ = false := hrest.2
  exact (key tr (coordStep s .stop) rfl h).1

theorem stop_cancels_timer_no_processing_witness :
    (coordRun (coordStep coordS8 .stop) [.start, .timerFire]).processed =
      coordS8.processed :=
  stop_cancels_timer_no_processing coordS8 [.start, .timerFire] (by decide)

/-- C9: the compiled matcher keeps its alternative list and its mapping
list the same length (the truncation to the 500-entry cap shortens both in
lockstep), and for every successful match the index of the matching
alternative — the first defined capture group — resolves to a defined
mapping entry. -/
theorem patterns_mappings_aligned (gs : List Group) (cr : CompiledRegex)
    (h : buildCombinedRegex gs = some cr) :
    cr.patterns.length = cr.mappings.length ∧
    ∀ (prev : Option Nat) (t : Str) (j : Nat) (p : Pattern),
      firstMatch cr.patterns prev t = some (j, p) →
      (cr.mappings.get? j).isSome = true := by
  have hlen : cr.patterns.length = cr.mappings.length := by
    simp only [buildCombinedRegex] at h
    split at h
    · cases h
    · split at h
      · cases h
      · split at h
        · cases h
          simp [List.length_take, collect_length_eq gs]
        · cases h
          exact collect_length_eq gs
  refine ⟨hlen, ?_⟩
  intro prev t j p hm
  have hj : j < cr.patterns.length := by
    have := firstMatchAux_lt cr.patterns 0 prev t j p hm
    omega
  rw [hlen] at hj
  rw [List.get?_eq_get hj]
  rfl

theorem patterns_mappings_aligned_witness :
    crCat.patterns.length = crCat.mappings.length ∧
    (crCat.mappings.get? 0).isSome = true := by
  have h := patterns_mappings_aligned [catWholeG] crCat (by decide)
  exact ⟨h.1, h.2 none (jstr "cat") 0 { word := jstr "cat", wholeWord := true } (by decide)⟩

/-- C10: the per-node apply step never assigns the node's value when the
computed replacement equals the current text — in particular when nothing
matches (the cheap existence test already returns early) or when every
match rewrites to itself, `replaceInTextNode` reports no write at all. -/
theorem no_write_when_unchanged (cr : CompiledRegex) (parentSkipped processed : Bool)
    (t : Str) (h : replaceScan cr t = t) :
    replaceInTextNode (some cr) parentSkipped processed t = none :=
  replaceInTextNode_eq_none cr parentSkipped processed t h

theorem no_write_when_unchanged_witness :
    replaceInTextNode (some crCat) false false (jstr "dog day") = none :=
  no_write_when_unchanged crCat false false (jstr "dog day") (by decide)

end WordReplacer
